import Mathlib

/-!
# Verification of the wash `plugin.EntryAttributes` record

A shallow embedding of the attribute-record core of the repository
(`EntryAttributes` and its serializer in the plugin package): a
presence-tracked record of optional entry attributes (atime, mtime, ctime,
mode, size, meta) with fluent setters, a map projection (`ToMap`), a meta
fallback (`Meta`), and JSON encode/decode (`MarshalJSON`/`UnmarshalJSON`).

Modelling conventions:
* moments in time (`time.Time`) are tick counts, `Nat`; the Go zero time is
  tick `0` (`IsZero` becomes `= 0`);
* `os.FileMode` is a `uint32`, modelled as `Nat` (realizable values `< 2^32`);
  `size` is a `uint64` (realizable values `< 2^64`);
* decoded Go `interface{}` values and JSON documents share one inductive,
  `GoVal`; JSON numbers are integral (`Int`).  Go's `encoding/json` decodes
  every JSON number into a `float64`; that lossy step is modelled explicitly
  by `f64round`, round-to-nearest-even at a 53-bit significand;
* Go errors are values; we embed the error values built by the source
  (`attrMungeError`, the top-level decode error, the meta shape error) as an
  inductive, not as rendered strings;
* a Go method that mutates its receiver and returns an `error` becomes a
  function returning the final state of the receiver together with
  `Option` of the error, so partial mutation before a failure is observable.
-/

namespace Wash

/-- Go values as they appear in this component: JSON documents, values decoded
by `encoding/json` into `interface{}`, and the in-memory values that
`ToMap` stores (`time.Time`, `os.FileMode`, `uint64`).  `vnull` is the nil
interface (JSON `null`); `vnum` is a JSON number / `float64` (integral in
this development); `vobj` is a `map[string]interface{}`. -/
inductive GoVal where
  | vnull : GoVal
  | vbool : Bool → GoVal
  | vnum : Int → GoVal
  | vstr : String → GoVal
  | vtime : Nat → GoVal
  | vmode : Nat → GoVal
  | vsize : Nat → GoVal
  | varr : List GoVal → GoVal
  | vobj : List (String × GoVal) → GoVal
  deriving Repr

/-- JSONObject is a typedef to a map[string]interface{} object
(source: `type JSONObject = map[string]interface{}`).  Modelled as an
association list; `mapOfFields` below restores the map property. -/
abbrev JSONObject := List (String × GoVal)

/-- Go map read `m[k]`: the value stored at key `k`. -/
def mapGet (m : JSONObject) (k : String) : Option GoVal :=
  match m with
  | [] => none
  | (k', v) :: rest => if k' = k then some v else mapGet rest k

/-- Go map write `m[k] = v`: replace the binding of `k` if present, else
append it. -/
def mapSet (m : JSONObject) (k : String) (v : GoVal) : JSONObject :=
  match m with
  | [] => [(k, v)]
  | (k', v') :: rest => if k' = k then (k', v) :: rest else (k', v') :: mapSet rest k v

/-- Build a Go map from a decoded JSON object's fields in order; a duplicated
key keeps its last occurrence, as `encoding/json` does. -/
def mapOfFields (fs : List (String × GoVal)) : JSONObject :=
  fs.foldl (fun m kv => mapSet m kv.1 kv.2) []

@[simp] theorem mapGet_nil (k : String) : mapGet [] k = none := rfl

theorem mapGet_mapSet_self (m : JSONObject) (k : String) (v : GoVal) :
    mapGet (mapSet m k v) k = some v := by
  induction m with
  | nil => simp [mapGet, mapSet]
  | cons kv rest ih =>
    obtain ⟨k', v'⟩ := kv
    by_cases h : k' = k <;> simp [mapGet, mapSet, h, ih]

theorem mapGet_mapSet_ne (m : JSONObject) (k k' : String) (v : GoVal) (h : k ≠ k') :
    mapGet (mapSet m k v) k' = mapGet m k' := by
  induction m with
  | nil => simp [mapGet, mapSet, h]
  | cons kv rest ih =>
    obtain ⟨k₀, v₀⟩ := kv
    by_cases h0 : k₀ = k <;> by_cases h1 : k₀ = k' <;>
      simp_all [mapGet, mapSet]

def bitLenAux : Nat → Nat → Nat
  | _, 0 => 0
  | 0, _ => 0
  | fuel + 1, n + 1 => bitLenAux fuel ((n + 1) / 2) + 1

/-- Number of binary digits of `n` (`0` for `0`); the fuel argument of
`bitLenAux` only makes the recursion structural and never runs out. -/
def bitLen (n : Nat) : Nat := bitLenAux n n

/-- Round a nonnegative integer to the nearest IEEE-754 double-precision
value (round to nearest, ties to even), as `encoding/json` does when it
decodes a JSON number into an `interface{}` (a `float64`).  Doubles carry a
53-bit significand, so every integer of magnitude at most `2^53` is exact;
above that, the value is rounded to a multiple of `2^(bitlength - 53)`. -/
def f64roundNat (n : Nat) : Nat :=
  if n ≤ 2 ^ 53 then n
  else
    let k := bitLen n - 53
    let q := n / 2 ^ k
    let r := n % 2 ^ k
    let half := 2 ^ (k - 1)
    if r < half then q * 2 ^ k
    else if half < r then (q + 1) * 2 ^ k
    else (if q % 2 = 0 then q else q + 1) * 2 ^ k

/-- `f64roundNat` extended to signed JSON numbers. -/
def f64round (n : Int) : Int :=
  if n < 0 then -(Int.ofNat (f64roundNat (-n).toNat)) else Int.ofNat (f64roundNat n.toNat)

mutual
/-- The conversion `encoding/json` applies when decoding a JSON document into
`interface{}` values: every number becomes a `float64` (`f64round`); other
shapes are preserved. -/
def goDecode : GoVal → GoVal
  | .vnull => .vnull
  | .vbool b => .vbool b
  | .vnum n => .vnum (f64round n)
  | .vstr s => .vstr s
  | .vtime t => .vtime t
  | .vmode m => .vmode m
  | .vsize n => .vsize n
  | .varr xs => .varr (goDecodeList xs)
  | .vobj fs => .vobj (goDecodeFields fs)

def goDecodeList : List GoVal → List GoVal
  | [] => []
  | x :: xs => goDecode x :: goDecodeList xs

def goDecodeFields : List (String × GoVal) → List (String × GoVal)
  | [] => []
  | (k, v) :: fs => (k, goDecode v) :: goDecodeFields fs
end

/-- ASCII digit for `d < 10`. -/
def digitChar (d : Nat) : Char := Char.ofNat (48 + d)

def natDigitsAux : Nat → Nat → List Char
  | _, 0 => []
  | 0, _ => []
  | fuel + 1, n + 1 => digitChar ((n + 1) % 10) :: natDigitsAux fuel ((n + 1) / 10)

/-- Decimal digits of a number, least significant first (`[]` for `0`); the
fuel argument of `natDigitsAux` only makes the recursion structural and
never runs out. -/
def natDigits (n : Nat) : List Char := natDigitsAux n n

/-- Decimal numeral of a natural number. -/
def decimalStr (n : Nat) : String :=
  if n = 0 then "0" else ⟨(natDigits n).reverse⟩

/-- Numeric value of an ASCII digit. -/
def digitVal (c : Char) : Option Nat :=
  if 48 ≤ c.toNat ∧ c.toNat ≤ 57 then some (c.toNat - 48) else none

/-- Parse a big-endian digit string, accumulator style. -/
def parseDigitsBE (acc : Nat) : List Char → Option Nat
  | [] => some acc
  | c :: cs =>
    match digitVal c with
    | some d => parseDigitsBE (acc * 10 + d) cs
    | none => none

/-- Parse a nonempty decimal numeral. -/
def parseDecimal (s : String) : Option Nat :=
  match s.data with
  | [] => none
  | cs => parseDigitsBE 0 cs

/-- Modelled from the spec: the canonical transport string of a moment.  In
the implementation this is the RFC 3339 rendering produced by
`time.Time.MarshalJSON` (external standard library); here a moment is a tick
count and its canonical string is its decimal numeral. -/
def momentStr (t : Nat) : String := decimalStr t

/-- `os.FileMode.String()` (Go standard library): type-bit letters drawn from
`"dalTLDpSugct?"` for bits 31 down to 19, `'-'` if none, then the nine
permission bits rendered over `"rwxrwxrwx"`. -/
def modeString (m : Nat) : String :=
  let typeChars := ['d', 'a', 'l', 'T', 'L', 'D', 'p', 'S', 'u', 'g', 'c', 't', '?']
  let typ := typeChars.enum.filterMap fun ic =>
    if m / 2 ^ (31 - ic.1) % 2 = 1 then some ic.2 else none
  let typ := if typ.isEmpty then ['-'] else typ
  let rwx := ['r', 'w', 'x', 'r', 'w', 'x', 'r', 'w', 'x']
  let perm := rwx.enum.map fun ic => if m / 2 ^ (8 - ic.1) % 2 = 1 then ic.2 else '-'
  ⟨typ ++ perm⟩

mutual
/-- `encoding/json.Marshal` on the Go values of this component, producing the
JSON document: `time.Time` marshals to its canonical transport string,
`os.FileMode` (uint32) and `uint64` sizes to JSON numbers, containers
recursively.  (The real marshaller renders a map sorted by key; key order is
immaterial to map lookups, so insertion order is kept here.) -/
def marshalVal : GoVal → GoVal
  | .vnull => .vnull
  | .vbool b => .vbool b
  | .vnum n => .vnum n
  | .vstr s => .vstr s
  | .vtime t => .vstr (momentStr t)
  | .vmode m => .vnum (Int.ofNat m)
  | .vsize n => .vnum (Int.ofNat n)
  | .varr xs => .varr (marshalList xs)
  | .vobj fs => .vobj (marshalFields fs)

def marshalList : List GoVal → List GoVal
  | [] => []
  | x :: xs => marshalVal x :: marshalList xs

def marshalFields : List (String × GoVal) → List (String × GoVal)
  | [] => []
  | (k, v) :: fs => (k, marshalVal v) :: marshalFields fs
end

/-- `ToJSONObject` serializes `v` to a JSON object; the source panics (via
`panic`/`errz.Fatal`) when the serialization fails.  The outer `Option` is
that fatal abort (`none` = the program dies); the inner `Option JSONObject`
is the returned Go map, which — like any Go map — may be nil (`none`).
Branches, in source order:
* a value that already is a `JSONObject` is returned as-is (type assertion);
* otherwise the value is marshalled and unmarshalled back into a map:
  an object document yields its (float64-coerced) fields; the document
  `null` unmarshals into a map by setting it to nil, which is *not* an
  error, so the nil map is returned; any other document makes
  `json.Unmarshal` fail and `errz.Fatal` aborts.
(The `[]byte` fast path of the source is not modelled: raw byte slices are
outside this value universe.) -/
def ToJSONObject (v : GoVal) : Option (Option JSONObject) :=
  match v with
  | .vobj fs => some (some fs)
  | _ =>
    match marshalVal v with
    | .vobj fs => some (some (goDecodeFields fs))
    | .vnull => some none
    | _ => none

/-- `EntryAttributes` represents an entry's attributes: three times (absent
iff the stored moment is zero), mode and size with dedicated presence flags,
and the meta override (`none` = Go's nil map = never set). -/
structure EntryAttributes where
  atime : Nat := 0
  mtime : Nat := 0
  ctime : Nat := 0
  mode : Nat := 0
  hasMode : Bool := false
  size : Nat := 0
  hasSize : Bool := false
  meta : Option JSONObject := none
  deriving Repr

/-- The zero value `plugin.EntryAttributes{}`. -/
def EntryAttributes.empty : EntryAttributes := {}

/-- HasAtime returns true if the entry has a last access time
(`!a.atime.IsZero()`). -/
def EntryAttributes.HasAtime (a : EntryAttributes) : Bool := a.atime != 0

/-- Atime returns the entry's last access time. -/
def EntryAttributes.Atime (a : EntryAttributes) : Nat := a.atime

/-- SetAtime sets the entry's last access time (builder: returns the record). -/
def EntryAttributes.SetAtime (a : EntryAttributes) (atime : Nat) : EntryAttributes :=
  { a with atime := atime }

/-- HasMtime returns true if the entry has a last modified time. -/
def EntryAttributes.HasMtime (a : EntryAttributes) : Bool := a.mtime != 0

/-- Mtime returns the entry's last modified time. -/
def EntryAttributes.Mtime (a : EntryAttributes) : Nat := a.mtime

/-- SetMtime sets the entry's last modified time. -/
def EntryAttributes.SetMtime (a : EntryAttributes) (mtime : Nat) : EntryAttributes :=
  { a with mtime := mtime }

/-- HasCtime returns true if the entry has a creation time. -/
def EntryAttributes.HasCtime (a : EntryAttributes) : Bool := a.ctime != 0

/-- Ctime returns the entry's creation time. -/
def EntryAttributes.Ctime (a : EntryAttributes) : Nat := a.ctime

/-- SetCtime sets the entry's creation time. -/
def EntryAttributes.SetCtime (a : EntryAttributes) (ctime : Nat) : EntryAttributes :=
  { a with ctime := ctime }

/-- HasMode returns true if the entry has a mode. -/
def EntryAttributes.HasMode (a : EntryAttributes) : Bool := a.hasMode

/-- Mode returns the entry's mode. -/
def EntryAttributes.Mode (a : EntryAttributes) : Nat := a.mode

/-- SetMode sets the entry's mode and marks it present. -/
def EntryAttributes.SetMode (a : EntryAttributes) (mode : Nat) : EntryAttributes :=
  { a with mode := mode, hasMode := true }

/-- HasSize returns true if the entry has a size. -/
def EntryAttributes.HasSize (a : EntryAttributes) : Bool := a.hasSize

/-- Size returns the entry's size. -/
def EntryAttributes.Size (a : EntryAttributes) : Nat := a.size

/-- SetSize sets the entry's size and marks it present. -/
def EntryAttributes.SetSize (a : EntryAttributes) (size : Nat) : EntryAttributes :=
  { a with size := size, hasSize := true }

/-- SetMeta sets the entry's meta attribute to `ToJSONObject obj`; `none`
is `ToJSONObject`'s fatal abort (the source panics before returning). -/
def EntryAttributes.SetMeta (a : EntryAttributes) (obj : GoVal) : Option EntryAttributes :=
  (ToJSONObject obj).map fun m => { a with meta := m }

/-- The meta-free projection built by `ToMap`: one conditional insert per
present attribute, in source order; mode is rendered with its display
string, size as the raw unsigned integer, times as their moment values.
(In the source this is the `includeMeta = false` instance of `ToMap`;
`ToMap(true)` and `Meta` both bottom out here, so the bounded mutual
recursion of the source is unrolled through this definition.) -/
def EntryAttributes.toMapBase (a : EntryAttributes) : JSONObject :=
  let mp : JSONObject := []
  let mp := if a.HasAtime then mapSet mp "atime" (.vtime a.atime) else mp
  let mp := if a.HasMtime then mapSet mp "mtime" (.vtime a.mtime) else mp
  let mp := if a.HasCtime then mapSet mp "ctime" (.vtime a.ctime) else mp
  let mp := if a.HasMode then mapSet mp "mode" (.vstr (modeString a.mode)) else mp
  let mp := if a.HasSize then mapSet mp "size" (.vsize a.size) else mp
  mp

/-- Meta returns the stored meta object if `SetMeta` stored one, and
otherwise falls back to `a.ToMap(false)` (= `toMapBase`). -/
def EntryAttributes.Meta (a : EntryAttributes) : JSONObject :=
  match a.meta with
  | none => a.toMapBase
  | some m => m

/-- ToMap converts the entry's attributes to a map: the present attributes,
and — iff `includeMeta` — a `"meta"` entry holding `Meta()`. -/
def EntryAttributes.ToMap (a : EntryAttributes) (includeMeta : Bool) : JSONObject :=
  let mp := a.toMapBase
  if includeMeta then mapSet mp "meta" (.vobj a.Meta) else mp

/-- MarshalJSON: `ToMap(true)`, with the `"mode"` entry overridden to the
re-marshalable numeric form, then marshalled to a JSON document. -/
def EntryAttributes.MarshalJSON (a : EntryAttributes) : GoVal :=
  let m := a.ToMap true
  let m := if a.HasMode then mapSet m "mode" (.vmode a.mode) else m
  .vobj (marshalFields m)

/-- Error values produced on the decode path.  Go errors are values; the
constructors record the data the source interpolates into each message
(`fmt.Errorf`); the rendered text is immaterial here. -/
inductive GoErr where
  /-- Modelled from the spec: `munge.ToTime`'s typed error on an
  unrecognized time representation. -/
  | timeCoercion : GoVal → GoErr
  /-- Modelled from the spec: `munge.ToSize`'s typed error on an
  unrecognized size representation. -/
  | sizeCoercion : GoVal → GoErr
  /-- `fmt.Errorf("mode was unexpected type %T: %v", mode, mode)`. -/
  | modeType : GoVal → GoErr
  deriving Repr

/-- The errors `UnmarshalJSON` returns. -/
inductive DecodeErr where
  /-- "plugin.EntryAttributes.UnmarshalJSON received a non-JSON object". -/
  | nonJSONObject : DecodeErr
  /-- `attrMungeError(name, err)`: "... could not munge the <name> attribute". -/
  | attrMunge : String → GoErr → DecodeErr
  /-- "meta is not a JSON object". -/
  | metaNotObject : DecodeErr
  deriving Repr

/-- `attrMungeError` wraps an attribute name and the coercion failure. -/
def attrMungeError (name : String) (err : GoErr) : DecodeErr := .attrMunge name err

/-- Modelled from the spec: the coercion service's time conversion
(`munge.ToTime`, external to this repository).  It must accept at least
numeric epoch values and string-encoded moments, and fail with a typed error
on any other representation.  (Negative numeric epochs fall outside the
`Nat` tick model and are treated as unrecognized.) -/
def ToTime : GoVal → Except GoErr Nat
  | .vnum n => if 0 ≤ n then .ok n.toNat else .error (.timeCoercion (.vnum n))
  | .vstr s =>
    match parseDecimal s with
    | some t => .ok t
    | none => .error (.timeCoercion (.vstr s))
  | v => .error (.timeCoercion v)

/-- Modelled from the spec: the coercion service's size conversion
(`munge.ToSize`, external to this repository).  It must accept numeric and
string-encoded representations, producing an unsigned integer and failing
with a typed error otherwise (negative values have no unsigned reading and
are unrecognized). -/
def ToSize : GoVal → Except GoErr Nat
  | .vnum n => if 0 ≤ n then .ok n.toNat else .error (.sizeCoercion (.vnum n))
  | .vstr s =>
    match parseDecimal s with
    | some sz => .ok sz
    | none => .error (.sizeCoercion (.vstr s))
  | v => .error (.sizeCoercion v)

/-- Go's conversion of a (here: already rounded, integral) `float64` to an
`os.FileMode` (`uint32`).  Exact for `0 ≤ n < 2^32`; Go leaves the
out-of-range case implementation-defined, fixed here as truncation mod
`2^32`. -/
def fileModeOfFloat (n : Int) : Nat := n.toNat % 2 ^ 32

/-- `json.Unmarshal(data, &mp)` for `mp : map[string]interface{}`: an object
document yields its fields as a map (numbers coerced to float64, duplicate
keys keeping the last occurrence); the document `null` sets the map to nil —
no error, no keys; every other document is an unmarshalling error. -/
def unmarshalTopLevel : GoVal → Option JSONObject
  | .vobj fs => some (mapOfFields (goDecodeFields fs))
  | .vnull => some []
  | _ => none

/-- The state of a partially run `UnmarshalJSON`: the receiver so far and the
error to be returned, if one occurred. -/
abbrev DecodeStep := EntryAttributes × Option DecodeErr

/-- Sequencing of decode stages: Go's early `return err`. -/
def decodeAndThen (s : DecodeStep) (f : EntryAttributes → DecodeStep) : DecodeStep :=
  match s with
  | (a, some e) => (a, some e)
  | (a, none) => f a

/-- One `if <name>, ok := mp[<name>]; ok { ... munge.ToTime ... }` block of
`UnmarshalJSON`. -/
def decodeTimeKey (name : String) (set : EntryAttributes → Nat → EntryAttributes)
    (mp : JSONObject) (a : EntryAttributes) : DecodeStep :=
  match mapGet mp name with
  | none => (a, none)
  | some v =>
    match ToTime v with
    | .error e => (a, some (attrMungeError name e))
    | .ok t => (set a t, none)

/-- The `mode` block of `UnmarshalJSON`: the raw decoded value must be a
`float64` (`.vnum` after decoding); any other dynamic type is an
attribute-named error. -/
def decodeModeKey (mp : JSONObject) (a : EntryAttributes) : DecodeStep :=
  match mapGet mp "mode" with
  | none => (a, none)
  | some v =>
    match v with
    | .vnum raw => (a.SetMode (fileModeOfFloat raw), none)
    | _ => (a, some (attrMungeError "mode" (.modeType v)))

/-- The `size` block of `UnmarshalJSON`. -/
def decodeSizeKey (mp : JSONObject) (a : EntryAttributes) : DecodeStep :=
  match mapGet mp "size" with
  | none => (a, none)
  | some v =>
    match ToSize v with
    | .error e => (a, some (attrMungeError "size" e))
    | .ok sz => (a.SetSize sz, none)

/-- The `meta` block of `UnmarshalJSON`: the raw decoded value must already
be a `JSONObject`; it is installed via `SetMeta`, whose object fast path
cannot abort (`getD` discharges the impossible fatal branch). -/
def decodeMetaKey (mp : JSONObject) (a : EntryAttributes) : DecodeStep :=
  match mapGet mp "meta" with
  | none => (a, none)
  | some rawMeta =>
    match rawMeta with
    | .vobj fs => ((a.SetMeta (.vobj fs)).getD a, none)
    | _ => (a, some .metaNotObject)

/-- The per-key body of `UnmarshalJSON`, run once the document has decoded
into the map `mp`: the six recognized keys in source order, each aborting
the rest on failure. -/
def decodeFields (mp : JSONObject) (a : EntryAttributes) : DecodeStep :=
  decodeAndThen (decodeTimeKey "atime" EntryAttributes.SetAtime mp a) fun a =>
    decodeAndThen (decodeTimeKey "mtime" EntryAttributes.SetMtime mp a) fun a =>
      decodeAndThen (decodeTimeKey "ctime" EntryAttributes.SetCtime mp a) fun a =>
        decodeAndThen (decodeModeKey mp a) fun a =>
          decodeAndThen (decodeSizeKey mp a) fun a =>
            decodeMetaKey mp a

/-- UnmarshalJSON: decode the document into a map (failing with the
top-level error when that is impossible), then munge the recognized keys in
order.  The result is the receiver's final state — the source mutates the
receiver in place as it goes — paired with the returned error, if any. -/
def EntryAttributes.UnmarshalJSON (a : EntryAttributes) (data : GoVal) : DecodeStep :=
  match unmarshalTopLevel data with
  | none => (a, some .nonJSONObject)
  | some mp => decodeFields mp a

/-- One builder-pattern setter call on an `EntryAttributes` under
construction. -/
inductive BuildOp where
  | opSetAtime : Nat → BuildOp
  | opSetMtime : Nat → BuildOp
  | opSetCtime : Nat → BuildOp
  | opSetMode : Nat → BuildOp
  | opSetSize : Nat → BuildOp
  | opSetMeta : GoVal → BuildOp
  deriving Repr

/-- Whether a builder step is a `SetAtime` call. -/
def BuildOp.isSetAtime : BuildOp → Bool
  | .opSetAtime _ => true
  | _ => false

/-- Whether a builder step is a `SetMtime` call. -/
def BuildOp.isSetMtime : BuildOp → Bool
  | .opSetMtime _ => true
  | _ => false

/-- Whether a builder step is a `SetCtime` call. -/
def BuildOp.isSetCtime : BuildOp → Bool
  | .opSetCtime _ => true
  | _ => false

/-- Whether a builder step is a `SetSize` call. -/
def BuildOp.isSetSize : BuildOp → Bool
  | .opSetSize _ => true
  | _ => false

/-- Run one builder step; `none` is `SetMeta`'s fatal abort. -/
def applyOp (a : EntryAttributes) : BuildOp → Option EntryAttributes
  | .opSetAtime t => some (a.SetAtime t)
  | .opSetMtime t => some (a.SetMtime t)
  | .opSetCtime t => some (a.SetCtime t)
  | .opSetMode m => some (a.SetMode m)
  | .opSetSize n => some (a.SetSize n)
  | .opSetMeta v => a.SetMeta v

/-- Run a sequence of builder steps, stopping at a fatal abort. -/
def build (a : EntryAttributes) : List BuildOp → Option EntryAttributes
  | [] => some a
  | op :: ops =>
    match applyOp a op with
    | some a' => build a' ops
    | none => none

/-- The receiver state after the `atime` block of `UnmarshalJSON` has run on
`a`.  The keys are munged in the fixed order atime, mtime, ctime, mode,
size, meta; these prefix states name exactly what a decode that fails at a
later key leaves behind on the receiver. -/
def decodeUpToAtime (mp : JSONObject) (a : EntryAttributes) : EntryAttributes :=
  (decodeTimeKey "atime" EntryAttributes.SetAtime mp a).1

/-- The receiver state after the atime and mtime blocks. -/
def decodeUpToMtime (mp : JSONObject) (a : EntryAttributes) : EntryAttributes :=
  (decodeTimeKey "mtime" EntryAttributes.SetMtime mp (decodeUpToAtime mp a)).1

/-- The receiver state after the three time blocks. -/
def decodeUpToCtime (mp : JSONObject) (a : EntryAttributes) : EntryAttributes :=
  (decodeTimeKey "ctime" EntryAttributes.SetCtime mp (decodeUpToMtime mp a)).1

/-- The receiver state after the time and mode blocks. -/
def decodeUpToMode (mp : JSONObject) (a : EntryAttributes) : EntryAttributes :=
  (decodeModeKey mp (decodeUpToCtime mp a)).1

/-- The receiver state after every block before meta. -/
def decodeUpToSize (mp : JSONObject) (a : EntryAttributes) : EntryAttributes :=
  (decodeSizeKey mp (decodeUpToMode mp a)).1

/-- A time key of a decoded map is clean when it is absent or its value is
one the coercion service recognizes. -/
def timeKeyClean (mp : JSONObject) (name : String) : Prop :=
  ∀ v, mapGet mp name = some v → ∃ t, ToTime v = Except.ok t

/-- The document `{"atime": 1, "meta": "x"}` (C2's witness input): atime
decodes, meta fails. -/
def ex2doc : GoVal := .vobj [("atime", .vnum 1), ("meta", .vstr "x")]

/-- The map `ex2doc` decodes to. -/
def ex2map : JSONObject :=
  mapOfFields (goDecodeFields [("atime", GoVal.vnum 1), ("meta", GoVal.vstr "x")])

/-- A record with only an atime present (C3's witness input). -/
def ex3 : EntryAttributes := { atime := 5 }

/-- A record with an explicit meta override (C9's witness input). -/
def ex9 : EntryAttributes := { meta := some [("k", GoVal.vnull)] }

/-- A fully populated record with a small size (C1's witness input). -/
def ex1 : EntryAttributes :=
  { atime := 1, mtime := 2, ctime := 3, mode := 420, hasMode := true,
    size := 42, hasSize := true }

/-- A fully populated record whose size `2^53 + 1` is not representable in a
float64 (C1's counterexample input). -/
def cex1 : EntryAttributes :=
  { atime := 1, mtime := 1, ctime := 1, mode := 420, hasMode := true,
    size := 2 ^ 53 + 1, hasSize := true }

/-! ## The decimal codec round-trips -/

theorem digitVal_digitChar : ∀ d, d < 10 → digitVal (digitChar d) = some d := by decide

theorem parseDigitsBE_append (xs : List Char) (acc : Nat) (c : Char) :
    parseDigitsBE acc (xs ++ [c]) =
      (parseDigitsBE acc xs).bind fun m => (digitVal c).map fun d => m * 10 + d := by
  induction xs generalizing acc with
  | nil => cases h : digitVal c <;> simp [parseDigitsBE, h]
  | cons x xs ih => cases h : digitVal x <;> simp [parseDigitsBE, h, ih]

theorem parseDigitsBE_natDigitsAux (fuel : Nat) : ∀ n acc, n ≤ fuel →
    parseDigitsBE acc (natDigitsAux fuel n).reverse =
      some (acc * 10 ^ (natDigitsAux fuel n).length + n) := by
  induction fuel with
  | zero =>
    intro n acc h
    obtain rfl : n = 0 := Nat.le_zero.mp h
    simp [natDigitsAux, parseDigitsBE]
  | succ fuel ih =>
    intro n acc h
    match n with
    | 0 => simp [natDigitsAux, parseDigitsBE]
    | m + 1 =>
      have hq : (m + 1) / 10 ≤ fuel := by
        have := Nat.div_lt_self (Nat.succ_pos m) (by decide : 1 < 10)
        omega
      have hd : digitVal (digitChar ((m + 1) % 10)) = some ((m + 1) % 10) :=
        digitVal_digitChar _ (Nat.mod_lt _ (by decide))
      have step : natDigitsAux (fuel + 1) (m + 1)
          = digitChar ((m + 1) % 10) :: natDigitsAux fuel ((m + 1) / 10) := rfl
      rw [step, List.reverse_cons, parseDigitsBE_append, ih ((m + 1) / 10) acc hq, hd,
        List.length_cons]
      simp only [Option.some_bind, Option.map_some']
      congr 1
      rw [pow_succ]
      generalize (10 : Nat) ^ (natDigitsAux fuel ((m + 1) / 10)).length = E
      have hqr : (m + 1) / 10 * 10 + (m + 1) % 10 = m + 1 := by omega
      calc (acc * E + (m + 1) / 10) * 10 + (m + 1) % 10
          = acc * (E * 10) + ((m + 1) / 10 * 10 + (m + 1) % 10) := by ring
        _ = acc * (E * 10) + (m + 1) := by rw [hqr]

theorem parseDecimal_decimalStr (n : Nat) : parseDecimal (decimalStr n) = some n := by
  rcases Nat.eq_zero_or_pos n with rfl | hn
  · decide
  · have hne : decimalStr n = ⟨(natDigits n).reverse⟩ := by
      unfold decimalStr
      rw [if_neg (Nat.pos_iff_ne_zero.mp hn)]
    obtain ⟨m, rfl⟩ : ∃ m, n = m + 1 := ⟨n - 1, by omega⟩
    have hnonnil : (natDigits (m + 1)).reverse ≠ [] := by
      have hu : natDigits (m + 1)
          = digitChar ((m + 1) % 10) :: natDigitsAux m ((m + 1) / 10) := rfl
      simp [hu]
    unfold parseDecimal
    rw [hne]
    show (match (natDigits (m + 1)).reverse with
      | [] => none
      | cs => parseDigitsBE 0 cs) = some (m + 1)
    cases hcc : (natDigits (m + 1)).reverse with
    | nil => exact absurd hcc hnonnil
    | cons c cs =>
      show parseDigitsBE 0 (c :: cs) = some (m + 1)
      rw [← hcc]
      simpa using parseDigitsBE_natDigitsAux (m + 1) (m + 1) 0 (Nat.le_refl _)

theorem ToTime_momentStr (t : Nat) : ToTime (.vstr (momentStr t)) = .ok t := by
  simp [ToTime, momentStr, parseDecimal_decimalStr]

/-! ## Small floating-point and coercion facts -/

theorem f64roundNat_small {n : Nat} (h : n ≤ 2 ^ 53) : f64roundNat n = n := by
  unfold f64roundNat
  rw [if_pos h]

theorem f64round_ofNat (n : Nat) : f64round (n : Int) = (f64roundNat n : Int) := by
  simp [f64round]

theorem ToSize_ofNat (n : Nat) : ToSize (.vnum (n : Int)) = .ok n := by
  simp [ToSize, Int.natCast_nonneg]

/-! ## Projection facts about `ToMap` and builder traces -/

theorem mapGet_toMapBase_meta (a : EntryAttributes) : mapGet a.toMapBase "meta" = none := by
  unfold EntryAttributes.toMapBase
  split_ifs <;> simp [mapGet_mapSet_ne, mapGet]

theorem applyOp_fields (a : EntryAttributes) (op : BuildOp) (a' : EntryAttributes)
    (h : applyOp a op = some a') :
    (op.isSetAtime = false → a'.atime = a.atime) ∧
    (op.isSetMtime = false → a'.mtime = a.mtime) ∧
    (op.isSetCtime = false → a'.ctime = a.ctime) ∧
    (op.isSetSize = false → a'.hasSize = a.hasSize) := by
  cases op with
  | opSetMeta v =>
    simp only [applyOp, EntryAttributes.SetMeta] at h
    cases hj : ToJSONObject v with
    | none => rw [hj] at h; simp at h
    | some m =>
      rw [hj] at h
      simp only [Option.map_some', Option.some.injEq] at h
      subst h
      simp [BuildOp.isSetAtime, BuildOp.isSetMtime, BuildOp.isSetCtime, BuildOp.isSetSize]
  | opSetAtime t =>
    simp only [applyOp, EntryAttributes.SetAtime, Option.some.injEq] at h
    subst h
    simp [BuildOp.isSetAtime, BuildOp.isSetMtime, BuildOp.isSetCtime, BuildOp.isSetSize]
  | opSetMtime t =>
    simp only [applyOp, EntryAttributes.SetMtime, Option.some.injEq] at h
    subst h
    simp [BuildOp.isSetAtime, BuildOp.isSetMtime, BuildOp.isSetCtime, BuildOp.isSetSize]
  | opSetCtime t =>
    simp only [applyOp, EntryAttributes.SetCtime, Option.some.injEq] at h
    subst h
    simp [BuildOp.isSetAtime, BuildOp.isSetMtime, BuildOp.isSetCtime, BuildOp.isSetSize]
  | opSetMode m =>
    simp only [applyOp, EntryAttributes.SetMode, Option.some.injEq] at h
    subst h
    simp [BuildOp.isSetAtime, BuildOp.isSetMtime, BuildOp.isSetCtime, BuildOp.isSetSize]
  | opSetSize n =>
    simp only [applyOp, EntryAttributes.SetSize, Option.some.injEq] at h
    subst h
    simp [BuildOp.isSetAtime, BuildOp.isSetMtime, BuildOp.isSetCtime, BuildOp.isSetSize]

theorem build_preserves (P : EntryAttributes → Prop) (touch : BuildOp → Bool)
    (hstep : ∀ a op a', touch op = false → applyOp a op = some a' → P a → P a') :
    ∀ ops a a', build a ops = some a' → (∀ op ∈ ops, touch op = false) → P a → P a' := by
  intro ops
  induction ops with
  | nil =>
    intro a a' h _ hP
    simp only [build, Option.some.injEq] at h
    exact h ▸ hP
  | cons op ops ih =>
    intro a a' h hall hP
    cases happly : applyOp a op with
    | none => simp [build, happly] at h
    | some a1 =>
      simp only [build, happly] at h
      exact ih a1 a' h (fun o ho => hall o (List.mem_cons_of_mem _ ho))
        (hstep a op a1 (hall op (List.mem_cons_self _ _)) happly hP)

/-! ## Decode-stage facts -/

theorem decodeTimeKey_err_shape (name : String) (set : EntryAttributes → Nat → EntryAttributes)
    (mp : JSONObject) (a : EntryAttributes) :
    ∀ e, (decodeTimeKey name set mp a).2 = some e → ∃ ge, e = DecodeErr.attrMunge name ge := by
  intro e h
  cases hget : mapGet mp name with
  | none => simp [decodeTimeKey, hget] at h
  | some v =>
    cases ht : ToTime v with
    | error ge =>
      simp [decodeTimeKey, hget, ht, attrMungeError] at h
      exact ⟨ge, h.symm⟩
    | ok t => simp [decodeTimeKey, hget, ht] at h

theorem decodeTimeKey_meta (name : String) (set : EntryAttributes → Nat → EntryAttributes)
    (mp : JSONObject) (a : EntryAttributes) (hset : ∀ b t, (set b t).meta = b.meta) :
    ((decodeTimeKey name set mp a).1).meta = a.meta := by
  cases hget : mapGet mp name with
  | none => simp [decodeTimeKey, hget]
  | some v =>
    cases ht : ToTime v with
    | error ge => simp [decodeTimeKey, hget, ht]
    | ok t => simp [decodeTimeKey, hget, ht, hset]

theorem decodeModeKey_err_shape (mp : JSONObject) (a : EntryAttributes) :
    ∀ e, (decodeModeKey mp a).2 = some e → ∃ ge, e = DecodeErr.attrMunge "mode" ge := by
  intro e h
  cases hget : mapGet mp "mode" with
  | none => simp [decodeModeKey, hget] at h
  | some v =>
    cases v <;> simp [decodeModeKey, hget, attrMungeError] at h <;> exact ⟨_, h.symm⟩

theorem decodeModeKey_meta (mp : JSONObject) (a : EntryAttributes) :
    ((decodeModeKey mp a).1).meta = a.meta := by
  cases hget : mapGet mp "mode" with
  | none => simp [decodeModeKey, hget]
  | some v => cases v <;> simp [decodeModeKey, hget, EntryAttributes.SetMode]

theorem decodeSizeKey_err_shape (mp : JSONObject) (a : EntryAttributes) :
    ∀ e, (decodeSizeKey mp a).2 = some e → ∃ ge, e = DecodeErr.attrMunge "size" ge := by
  intro e h
  cases hget : mapGet mp "size" with
  | none => simp [decodeSizeKey, hget] at h
  | some v =>
    cases ht : ToSize v with
    | error ge =>
      simp [decodeSizeKey, hget, ht, attrMungeError] at h
      exact ⟨ge, h.symm⟩
    | ok sz => simp [decodeSizeKey, hget, ht] at h

theorem decodeSizeKey_meta (mp : JSONObject) (a : EntryAttributes) :
    ((decodeSizeKey mp a).1).meta = a.meta := by
  cases hget : mapGet mp "size" with
  | none => simp [decodeSizeKey, hget]
  | some v =>
    cases ht : ToSize v with
    | error ge => simp [decodeSizeKey, hget, ht]
    | ok sz => simp [decodeSizeKey, hget, ht, EntryAttributes.SetSize]

theorem decodeMetaKey_spec (mp : JSONObject) (a : EntryAttributes) :
    ((decodeMetaKey mp a).2 ≠ some DecodeErr.nonJSONObject) ∧
    ((decodeMetaKey mp a).2.isSome = true → (decodeMetaKey mp a).1.meta = a.meta) := by
  cases hget : mapGet mp "meta" with
  | none => simp [decodeMetaKey, hget]
  | some v => cases v <;> simp [decodeMetaKey, hget, EntryAttributes.SetMeta, ToJSONObject]

theorem decodeAndThen_spec (a0 : EntryAttributes) (s : DecodeStep)
    (f : EntryAttributes → DecodeStep)
    (hsE : s.2 ≠ some DecodeErr.nonJSONObject)
    (hsM : s.1.meta = a0.meta)
    (hf : s.2 = none → (f s.1).2 ≠ some DecodeErr.nonJSONObject ∧
      ((f s.1).2.isSome = true → (f s.1).1.meta = a0.meta)) :
    (decodeAndThen s f).2 ≠ some DecodeErr.nonJSONObject ∧
    ((decodeAndThen s f).2.isSome = true → (decodeAndThen s f).1.meta = a0.meta) := by
  rcases s with ⟨b, e⟩
  cases e with
  | none => exact hf rfl
  | some e => exact ⟨hsE, fun _ => hsM⟩

theorem decodeFields_spec (mp : JSONObject) (a : EntryAttributes) :
    ((decodeFields mp a).2 ≠ some DecodeErr.nonJSONObject) ∧
    ((decodeFields mp a).2.isSome = true → (decodeFields mp a).1.meta = a.meta) := by
  unfold decodeFields
  refine decodeAndThen_spec a _ _ ?_ ?_ fun h1 => ?_
  · intro h
    obtain ⟨ge, hge⟩ := decodeTimeKey_err_shape "atime" EntryAttributes.SetAtime mp a _ h
    exact DecodeErr.noConfusion hge
  · exact decodeTimeKey_meta "atime" EntryAttributes.SetAtime mp a fun b t => rfl
  · set a1 := (decodeTimeKey "atime" EntryAttributes.SetAtime mp a).1 with ha1
    have hm1 : a1.meta = a.meta :=
      decodeTimeKey_meta "atime" EntryAttributes.SetAtime mp a fun b t => rfl
    refine decodeAndThen_spec a _ _ ?_ ?_ fun h2 => ?_
    · intro h
      obtain ⟨ge, hge⟩ := decodeTimeKey_err_shape "mtime" EntryAttributes.SetMtime mp a1 _ h
      exact DecodeErr.noConfusion hge
    · exact (decodeTimeKey_meta "mtime" EntryAttributes.SetMtime mp a1 fun b t => rfl).trans hm1
    · set a2 := (decodeTimeKey "mtime" EntryAttributes.SetMtime mp a1).1 with ha2
      have hm2 : a2.meta = a.meta :=
        (decodeTimeKey_meta "mtime" EntryAttributes.SetMtime mp a1 fun b t => rfl).trans hm1
      refine decodeAndThen_spec a _ _ ?_ ?_ fun h3 => ?_
      · intro h
        obtain ⟨ge, hge⟩ := decodeTimeKey_err_shape "ctime" EntryAttributes.SetCtime mp a2 _ h
        exact DecodeErr.noConfusion hge
      · exact (decodeTimeKey_meta "ctime" EntryAttributes.SetCtime mp a2 fun b t => rfl).trans hm2
      · set a3 := (decodeTimeKey "ctime" EntryAttributes.SetCtime mp a2).1 with ha3
        have hm3 : a3.meta = a.meta :=
          (decodeTimeKey_meta "ctime" EntryAttributes.SetCtime mp a2 fun b t => rfl).trans hm2
        refine decodeAndThen_spec a _ _ ?_ ?_ fun h4 => ?_
        · intro h
          obtain ⟨ge, hge⟩ := decodeModeKey_err_shape mp a3 _ h
          exact DecodeErr.noConfusion hge
        · exact (decodeModeKey_meta mp a3).trans hm3
        · set a4 := (decodeModeKey mp a3).1 with ha4
          have hm4 : a4.meta = a.meta := (decodeModeKey_meta mp a3).trans hm3
          refine decodeAndThen_spec a _ _ ?_ ?_ fun h5 => ?_
          · intro h
            obtain ⟨ge, hge⟩ := decodeSizeKey_err_shape mp a4 _ h
            exact DecodeErr.noConfusion hge
          · exact (decodeSizeKey_meta mp a4).trans hm4
          · set a5 := (decodeSizeKey mp a4).1 with ha5
            have hm5 : a5.meta = a.meta := (decodeSizeKey_meta mp a4).trans hm4
            have h := decodeMetaKey_spec mp a5
            exact ⟨h.1, fun hs => (h.2 hs).trans hm5⟩

theorem decodeSizeKey_mode (mp : JSONObject) (a : EntryAttributes) :
    ((decodeSizeKey mp a).1).hasMode = a.hasMode ∧ ((decodeSizeKey mp a).1).mode = a.mode := by
  cases hget : mapGet mp "size" with
  | none => simp [decodeSizeKey, hget]
  | some v =>
    cases ht : ToSize v with
    | error ge => simp [decodeSizeKey, hget, ht]
    | ok sz => simp [decodeSizeKey, hget, ht, EntryAttributes.SetSize]

theorem decodeMetaKey_mode (mp : JSONObject) (a : EntryAttributes) :
    ((decodeMetaKey mp a).1).hasMode = a.hasMode ∧ ((decodeMetaKey mp a).1).mode = a.mode := by
  cases hget : mapGet mp "meta" with
  | none => simp [decodeMetaKey, hget]
  | some v => cases v <;> simp [decodeMetaKey, hget, EntryAttributes.SetMeta, ToJSONObject]

theorem decodeSM_mode (mp : JSONObject) (b : EntryAttributes) :
    ((decodeAndThen (decodeSizeKey mp b) fun b2 => decodeMetaKey mp b2).1.hasMode = b.hasMode) ∧
    ((decodeAndThen (decodeSizeKey mp b) fun b2 => decodeMetaKey mp b2).1.mode = b.mode) := by
  rcases hs : decodeSizeKey mp b with ⟨b1, e⟩
  have hb : b1.hasMode = b.hasMode ∧ b1.mode = b.mode := by
    have h1 := decodeSizeKey_mode mp b
    rw [hs] at h1
    exact h1
  cases e with
  | some e => simpa [decodeAndThen] using hb
  | none =>
    have h2 := decodeMetaKey_mode mp b1
    simp only [decodeAndThen]
    exact ⟨h2.1.trans hb.1, h2.2.trans hb.2⟩

theorem decodeAndThen_none (s : DecodeStep) (f : EntryAttributes → DecodeStep)
    (h : s.2 = none) : decodeAndThen s f = f s.1 := by
  rcases s with ⟨b, e⟩
  cases e with
  | none => rfl
  | some e => simp at h

theorem decodeTimeKey_clean (name : String) (set : EntryAttributes → Nat → EntryAttributes)
    (mp : JSONObject) (a : EntryAttributes) (h : timeKeyClean mp name) :
    (decodeTimeKey name set mp a).2 = none := by
  cases hget : mapGet mp name with
  | none => simp [decodeTimeKey, hget]
  | some v =>
    obtain ⟨t, ht⟩ := h v hget
    simp [decodeTimeKey, hget, ht]

theorem decodeTimeKey_split (name : String) (set : EntryAttributes → Nat → EntryAttributes)
    (mp : JSONObject) (a : EntryAttributes) :
    (decodeTimeKey name set mp a).2 = none ∨
    ∃ ge, decodeTimeKey name set mp a = (a, some (DecodeErr.attrMunge name ge)) := by
  cases hget : mapGet mp name with
  | none => left; simp [decodeTimeKey, hget]
  | some v =>
    cases ht : ToTime v with
    | ok t => left; simp [decodeTimeKey, hget, ht]
    | error ge => right; exact ⟨ge, by simp [decodeTimeKey, hget, ht, attrMungeError]⟩

theorem decodeModeKey_split (mp : JSONObject) (a : EntryAttributes) :
    (decodeModeKey mp a).2 = none ∨
    ∃ ge, decodeModeKey mp a = (a, some (DecodeErr.attrMunge "mode" ge)) := by
  cases hget : mapGet mp "mode" with
  | none => left; simp [decodeModeKey, hget]
  | some v =>
    cases v with
    | vnum n => left; simp [decodeModeKey, hget]
    | vnull => right; exact ⟨.modeType .vnull, by simp [decodeModeKey, hget, attrMungeError]⟩
    | vbool b =>
      right; exact ⟨.modeType (.vbool b), by simp [decodeModeKey, hget, attrMungeError]⟩
    | vstr s2 =>
      right; exact ⟨.modeType (.vstr s2), by simp [decodeModeKey, hget, attrMungeError]⟩
    | vtime t =>
      right; exact ⟨.modeType (.vtime t), by simp [decodeModeKey, hget, attrMungeError]⟩
    | vmode m =>
      right; exact ⟨.modeType (.vmode m), by simp [decodeModeKey, hget, attrMungeError]⟩
    | vsize n =>
      right; exact ⟨.modeType (.vsize n), by simp [decodeModeKey, hget, attrMungeError]⟩
    | varr xs =>
      right; exact ⟨.modeType (.varr xs), by simp [decodeModeKey, hget, attrMungeError]⟩
    | vobj fs =>
      right; exact ⟨.modeType (.vobj fs), by simp [decodeModeKey, hget, attrMungeError]⟩

theorem decodeSizeKey_split (mp : JSONObject) (a : EntryAttributes) :
    (decodeSizeKey mp a).2 = none ∨
    ∃ ge, decodeSizeKey mp a = (a, some (DecodeErr.attrMunge "size" ge)) := by
  cases hget : mapGet mp "size" with
  | none => left; simp [decodeSizeKey, hget]
  | some v =>
    cases ht : ToSize v with
    | ok sz => left; simp [decodeSizeKey, hget, ht]
    | error ge => right; exact ⟨ge, by simp [decodeSizeKey, hget, ht, attrMungeError]⟩

theorem decodeMetaKey_split (mp : JSONObject) (a : EntryAttributes) :
    (decodeMetaKey mp a).2 = none ∨
    decodeMetaKey mp a = (a, some DecodeErr.metaNotObject) := by
  cases hget : mapGet mp "meta" with
  | none => left; simp [decodeMetaKey, hget]
  | some v =>
    cases v with
    | vobj fs => left; simp [decodeMetaKey, hget]
    | vnull => right; simp [decodeMetaKey, hget]
    | vbool b => right; simp [decodeMetaKey, hget]
    | vnum n => right; simp [decodeMetaKey, hget]
    | vstr s2 => right; simp [decodeMetaKey, hget]
    | vtime t => right; simp [decodeMetaKey, hget]
    | vmode m => right; simp [decodeMetaKey, hget]
    | vsize n => right; simp [decodeMetaKey, hget]
    | varr xs => right; simp [decodeMetaKey, hget]

/-- Where a run of the decode body can end up: no error, or an error at
exactly one key, with the receiver equal to the state after the keys munged
before the failing one. -/
theorem decodeFields_cases (mp : JSONObject) (a : EntryAttributes) :
    (decodeFields mp a).2 = none ∨
    (∃ e, decodeFields mp a = (a, some (DecodeErr.attrMunge "atime" e))) ∨
    (∃ e, decodeFields mp a = (decodeUpToAtime mp a, some (DecodeErr.attrMunge "mtime" e))) ∨
    (∃ e, decodeFields mp a = (decodeUpToMtime mp a, some (DecodeErr.attrMunge "ctime" e))) ∨
    (∃ e, decodeFields mp a = (decodeUpToCtime mp a, some (DecodeErr.attrMunge "mode" e))) ∨
    (∃ e, decodeFields mp a = (decodeUpToMode mp a, some (DecodeErr.attrMunge "size" e))) ∨
    decodeFields mp a = (decodeUpToSize mp a, some DecodeErr.metaNotObject) := by
  unfold decodeFields
  rcases decodeTimeKey_split "atime" EntryAttributes.SetAtime mp a with h1 | ⟨ge1, h1⟩
  · have h1' : decodeTimeKey "atime" EntryAttributes.SetAtime mp a
        = (decodeUpToAtime mp a, none) := by
      rw [← h1]
      rfl
    rw [h1']
    simp only [decodeAndThen]
    rcases decodeTimeKey_split "mtime" EntryAttributes.SetMtime mp (decodeUpToAtime mp a)
      with h2 | ⟨ge2, h2⟩
    · have h2' : decodeTimeKey "mtime" EntryAttributes.SetMtime mp (decodeUpToAtime mp a)
          = (decodeUpToMtime mp a, none) := by
        rw [← h2]
        rfl
      rw [h2']
      simp only [decodeAndThen]
      rcases decodeTimeKey_split "ctime" EntryAttributes.SetCtime mp (decodeUpToMtime mp a)
        with h3 | ⟨ge3, h3⟩
      · have h3' : decodeTimeKey "ctime" EntryAttributes.SetCtime mp (decodeUpToMtime mp a)
            = (decodeUpToCtime mp a, none) := by
          rw [← h3]
          rfl
        rw [h3']
        simp only [decodeAndThen]
        rcases decodeModeKey_split mp (decodeUpToCtime mp a) with h4 | ⟨ge4, h4⟩
        · have h4' : decodeModeKey mp (decodeUpToCtime mp a)
              = (decodeUpToMode mp a, none) := by
            rw [← h4]
            rfl
          rw [h4']
          simp only [decodeAndThen]
          rcases decodeSizeKey_split mp (decodeUpToMode mp a) with h5 | ⟨ge5, h5⟩
          · have h5' : decodeSizeKey mp (decodeUpToMode mp a)
                = (decodeUpToSize mp a, none) := by
              rw [← h5]
              rfl
            rw [h5']
            simp only [decodeAndThen]
            rcases decodeMetaKey_split mp (decodeUpToSize mp a) with h6 | h6
            · exact Or.inl h6
            · exact Or.inr (Or.inr (Or.inr (Or.inr (Or.inr (Or.inr h6)))))
          · rw [h5]
            exact Or.inr (Or.inr (Or.inr (Or.inr (Or.inr (Or.inl ⟨ge5, rfl⟩)))))
        · rw [h4]
          exact Or.inr (Or.inr (Or.inr (Or.inr (Or.inl ⟨ge4, rfl⟩))))
      · rw [h3]
        exact Or.inr (Or.inr (Or.inr (Or.inl ⟨ge3, rfl⟩)))
    · rw [h2]
      exact Or.inr (Or.inr (Or.inl ⟨ge2, rfl⟩))
  · rw [h1]
    exact Or.inr (Or.inl ⟨ge1, rfl⟩)

/-! ## Closed forms of the encoder on fully populated records -/

theorem toMapBase_full (r : EntryAttributes)
    (hat : r.atime ≠ 0) (hmt : r.mtime ≠ 0) (hct : r.ctime ≠ 0)
    (hm : r.hasMode = true) (hs : r.hasSize = true) :
    r.toMapBase = [("atime", GoVal.vtime r.atime), ("mtime", GoVal.vtime r.mtime),
      ("ctime", GoVal.vtime r.ctime), ("mode", GoVal.vstr (modeString r.mode)),
      ("size", GoVal.vsize r.size)] := by
  simp [EntryAttributes.toMapBase, EntryAttributes.HasAtime, EntryAttributes.HasMtime,
    EntryAttributes.HasCtime, EntryAttributes.HasMode, EntryAttributes.HasSize,
    hat, hmt, hct, hm, hs, mapSet]

theorem MarshalJSON_full (r : EntryAttributes) (hmeta : r.meta = none)
    (hat : r.atime ≠ 0) (hmt : r.mtime ≠ 0) (hct : r.ctime ≠ 0)
    (hm : r.hasMode = true) (hs : r.hasSize = true) :
    r.MarshalJSON = GoVal.vobj [("atime", GoVal.vstr (momentStr r.atime)),
      ("mtime", GoVal.vstr (momentStr r.mtime)), ("ctime", GoVal.vstr (momentStr r.ctime)),
      ("mode", GoVal.vnum (r.mode : Int)), ("size", GoVal.vnum (r.size : Int)),
      ("meta", GoVal.vobj [("atime", GoVal.vstr (momentStr r.atime)),
        ("mtime", GoVal.vstr (momentStr r.mtime)), ("ctime", GoVal.vstr (momentStr r.ctime)),
        ("mode", GoVal.vstr (modeString r.mode)), ("size", GoVal.vnum (r.size : Int))])] := by
  unfold EntryAttributes.MarshalJSON EntryAttributes.ToMap
  rw [toMapBase_full r hat hmt hct hm hs]
  simp [EntryAttributes.Meta, EntryAttributes.HasMode, hmeta, hm,
    toMapBase_full r hat hmt hct hm hs, mapSet, marshalFields, marshalVal]


/-- C1 (amended): encoding a record with non-zero times, mode and size set
(and no meta override) and decoding the result reproduces atime, mtime,
ctime and mode exactly and size exactly *provided* the size is exactly
representable as an IEEE-754 double (e.g. any size up to `2^53`); decoding
into an interface map coerces numbers through float64, so larger sizes are
reproduced only up to double rounding. -/
theorem claim1_roundtrip (r : EntryAttributes)
    (hmeta : r.meta = none)
    (hat : r.atime ≠ 0) (hmt : r.mtime ≠ 0) (hct : r.ctime ≠ 0)
    (hm : r.hasMode = true) (hs : r.hasSize = true)
    (hmode32 : r.mode < 2 ^ 32) (hsize64 : r.size < 2 ^ 64)
    (hrep : f64roundNat r.size = r.size) :
    (EntryAttributes.empty.UnmarshalJSON r.MarshalJSON).2 = none ∧
    (EntryAttributes.empty.UnmarshalJSON r.MarshalJSON).1.atime = r.atime ∧
    (EntryAttributes.empty.UnmarshalJSON r.MarshalJSON).1.mtime = r.mtime ∧
    (EntryAttributes.empty.UnmarshalJSON r.MarshalJSON).1.ctime = r.ctime ∧
    (EntryAttributes.empty.UnmarshalJSON r.MarshalJSON).1.hasMode = true ∧
    (EntryAttributes.empty.UnmarshalJSON r.MarshalJSON).1.mode = r.mode ∧
    (EntryAttributes.empty.UnmarshalJSON r.MarshalJSON).1.hasSize = true ∧
    (EntryAttributes.empty.UnmarshalJSON r.MarshalJSON).1.size = r.size := by
  have hrm : f64roundNat r.mode = r.mode :=
    f64roundNat_small (Nat.le_of_lt (lt_of_lt_of_le hmode32 (by norm_num)))
  have hfm : fileModeOfFloat (r.mode : Int) = r.mode := by
    simp only [fileModeOfFloat, Int.toNat_natCast]
    exact Nat.mod_eq_of_lt hmode32
  set inner : JSONObject := [("atime", GoVal.vstr (momentStr r.atime)),
    ("mtime", GoVal.vstr (momentStr r.mtime)), ("ctime", GoVal.vstr (momentStr r.ctime)),
    ("mode", GoVal.vstr (modeString r.mode)), ("size", GoVal.vnum (r.size : Int))]
    with hinner
  set M : JSONObject := [("atime", GoVal.vstr (momentStr r.atime)),
    ("mtime", GoVal.vstr (momentStr r.mtime)), ("ctime", GoVal.vstr (momentStr r.ctime)),
    ("mode", GoVal.vnum (r.mode : Int)), ("size", GoVal.vnum (r.size : Int)),
    ("meta", GoVal.vobj inner)] with hM
  have hA : unmarshalTopLevel r.MarshalJSON = some M := by
    rw [MarshalJSON_full r hmeta hat hmt hct hm hs]
    simp [hM, hinner, unmarshalTopLevel, goDecodeFields, goDecode, f64round_ofNat, hrm,
      hrep, mapOfFields, mapSet]
  have hU : EntryAttributes.empty.UnmarshalJSON r.MarshalJSON
      = decodeFields M EntryAttributes.empty := by
    unfold EntryAttributes.UnmarshalJSON
    rw [hA]
  have e1 : decodeTimeKey "atime" EntryAttributes.SetAtime M EntryAttributes.empty
      = ({ atime := r.atime }, none) := by
    simp [hM, hinner, decodeTimeKey, mapGet, ToTime_momentStr, EntryAttributes.SetAtime,
      EntryAttributes.empty]
  have e2 : decodeTimeKey "mtime" EntryAttributes.SetMtime M { atime := r.atime }
      = ({ atime := r.atime, mtime := r.mtime }, none) := by
    simp [hM, hinner, decodeTimeKey, mapGet, ToTime_momentStr, EntryAttributes.SetMtime]
  have e3 : decodeTimeKey "ctime" EntryAttributes.SetCtime M
        { atime := r.atime, mtime := r.mtime }
      = ({ atime := r.atime, mtime := r.mtime, ctime := r.ctime }, none) := by
    simp [hM, hinner, decodeTimeKey, mapGet, ToTime_momentStr, EntryAttributes.SetCtime]
  have e4 : decodeModeKey M { atime := r.atime, mtime := r.mtime, ctime := r.ctime }
      = ({ atime := r.atime, mtime := r.mtime, ctime := r.ctime, mode := r.mode,
           hasMode := true }, none) := by
    simp [hM, hinner, decodeModeKey, mapGet, hfm, EntryAttributes.SetMode]
  have e5 : decodeSizeKey M
        { atime := r.atime, mtime := r.mtime, ctime := r.ctime, mode := r.mode,
          hasMode := true }
      = ({ atime := r.atime, mtime := r.mtime, ctime := r.ctime, mode := r.mode,
           hasMode := true, size := r.size, hasSize := true }, none) := by
    simp [hM, hinner, decodeSizeKey, mapGet, ToSize_ofNat, EntryAttributes.SetSize]
  have e6 : decodeMetaKey M
        { atime := r.atime, mtime := r.mtime, ctime := r.ctime, mode := r.mode,
          hasMode := true, size := r.size, hasSize := true }
      = ({ atime := r.atime, mtime := r.mtime, ctime := r.ctime, mode := r.mode,
           hasMode := true, size := r.size, hasSize := true, meta := some inner }, none) := by
    simp [hM, decodeMetaKey, mapGet, EntryAttributes.SetMeta, ToJSONObject]
  have hfields : decodeFields M EntryAttributes.empty
      = ({ atime := r.atime, mtime := r.mtime, ctime := r.ctime, mode := r.mode,
           hasMode := true, size := r.size, hasSize := true, meta := some inner }, none) := by
    unfold decodeFields
    rw [e1]
    simp only [decodeAndThen]
    rw [e2]
    simp only [decodeAndThen]
    rw [e3]
    simp only [decodeAndThen]
    rw [e4]
    simp only [decodeAndThen]
    rw [e5]
    simp only [decodeAndThen]
    rw [e6]
  rw [hU, hfields]
  exact ⟨rfl, rfl, rfl, rfl, rfl, rfl, rfl, rfl⟩

/-- C1 counterexample: a record whose size is `2^53 + 1` — all and only the
claimed attributes are set, yet the decode of its encoding does not
reproduce the size exactly. -/
theorem claim1_counterexample :
    cex1.meta = none ∧ cex1.atime ≠ 0 ∧ cex1.mtime ≠ 0 ∧ cex1.ctime ≠ 0 ∧
    cex1.hasMode = true ∧ cex1.hasSize = true ∧
    (EntryAttributes.empty.UnmarshalJSON cex1.MarshalJSON).1.size ≠ cex1.size :=
  ⟨rfl, by decide, by decide, by decide, rfl, rfl, by decide⟩

/-- C1 witness: the amended round-trip at a concrete record of size 42. -/
theorem claim1_witness :
    (EntryAttributes.empty.UnmarshalJSON ex1.MarshalJSON).2 = none ∧
    (EntryAttributes.empty.UnmarshalJSON ex1.MarshalJSON).1.atime = ex1.atime ∧
    (EntryAttributes.empty.UnmarshalJSON ex1.MarshalJSON).1.mtime = ex1.mtime ∧
    (EntryAttributes.empty.UnmarshalJSON ex1.MarshalJSON).1.ctime = ex1.ctime ∧
    (EntryAttributes.empty.UnmarshalJSON ex1.MarshalJSON).1.hasMode = true ∧
    (EntryAttributes.empty.UnmarshalJSON ex1.MarshalJSON).1.mode = ex1.mode ∧
    (EntryAttributes.empty.UnmarshalJSON ex1.MarshalJSON).1.hasSize = true ∧
    (EntryAttributes.empty.UnmarshalJSON ex1.MarshalJSON).1.size = ex1.size :=
  claim1_roundtrip ex1 rfl (by decide) (by decide) (by decide) rfl rfl
    (by decide) (by decide) (by decide)

/-! ## The claims -/

/-- C3: for every record, `ToMap(false)` contains no `"meta"` key; and for
every record with at least one attribute present, `ToMap(true)` contains a
`"meta"` key, even if `SetMeta` was never called. -/
theorem claim3_toMap_meta_key (a : EntryAttributes) :
    mapGet (a.ToMap false) "meta" = none ∧
    ((a.HasAtime = true ∨ a.HasMtime = true ∨ a.HasCtime = true ∨ a.HasMode = true ∨
        a.HasSize = true ∨ a.meta.isSome = true) →
      (mapGet (a.ToMap true) "meta").isSome = true) := by
  constructor
  · show mapGet a.toMapBase "meta" = none
    exact mapGet_toMapBase_meta a
  · intro _
    show (mapGet (mapSet a.toMapBase "meta" (.vobj a.Meta)) "meta").isSome = true
    rw [mapGet_mapSet_self]
    rfl

/-- C3 witness: the theorem applied to a record with one present attribute. -/
theorem claim3_witness :
    mapGet (ex3.ToMap false) "meta" = none ∧ (mapGet (ex3.ToMap true) "meta").isSome = true :=
  ⟨(claim3_toMap_meta_key ex3).1, (claim3_toMap_meta_key ex3).2 (Or.inl rfl)⟩

/-- C4 (amended): `SetMeta v` completes normally iff `v` serializes to a JSON
object or to JSON `null` (the latter storing a nil override); it aborts
fatally for every other serialization. -/
theorem claim4_setmeta_fatal (a : EntryAttributes) (v : GoVal) :
    (a.SetMeta v).isSome = true ↔
      ((∃ fs, marshalVal v = GoVal.vobj fs) ∨ marshalVal v = GoVal.vnull) := by
  cases v <;> simp [EntryAttributes.SetMeta, ToJSONObject, marshalVal]

/-- C4 counterexample: the nil value serializes to JSON `null`, which is not
a JSON object, yet `SetMeta` on it completes normally instead of aborting. -/
theorem claim4_counterexample :
    (∀ fs, marshalVal GoVal.vnull ≠ GoVal.vobj fs) ∧
    (EntryAttributes.empty.SetMeta GoVal.vnull).isSome = true :=
  ⟨fun _ h => GoVal.noConfusion h, rfl⟩

/-- C5: `SetSize 0` makes `HasSize` true on any record, while a record built
by any fatal-free setter trace that never calls `SetSize` has `HasSize`
false: present zero size is distinguishable from absent size. -/
theorem claim5_setsize_zero (a : EntryAttributes) :
    (a.SetSize 0).HasSize = true ∧
    (∀ ops a', build EntryAttributes.empty ops = some a' →
      (∀ op ∈ ops, op.isSetSize = false) → a'.HasSize = false) := by
  refine ⟨rfl, ?_⟩
  intro ops a' hbuild hall
  exact build_preserves (fun x => x.hasSize = false) BuildOp.isSetSize
    (fun b op b' hop happ hP => by
      show b'.hasSize = false
      rw [(applyOp_fields b op b' happ).2.2.2 hop]; exact hP)
    ops EntryAttributes.empty a' hbuild hall rfl

/-- C5 witness: the theorem applied at size zero and at a `SetSize`-free
trace. -/
theorem claim5_witness :
    (EntryAttributes.empty.SetSize 0).HasSize = true ∧
    (EntryAttributes.empty.SetAtime 7).HasSize = false :=
  ⟨(claim5_setsize_zero EntryAttributes.empty).1,
   (claim5_setsize_zero EntryAttributes.empty).2 [BuildOp.opSetAtime 7] _ rfl
     (by intro op hop; rw [List.mem_singleton] at hop; subst hop; rfl)⟩

/-- C6: setting any of the three times to the zero moment is
indistinguishable from never setting it: `HasAtime`/`HasMtime`/`HasCtime`
are false in both cases. -/
theorem claim6_zero_time_indistinguishable :
    (∀ a : EntryAttributes, (a.SetAtime 0).HasAtime = false) ∧
    (∀ ops (a' : EntryAttributes), build EntryAttributes.empty ops = some a' →
      (∀ op ∈ ops, op.isSetAtime = false) → a'.HasAtime = false) ∧
    (∀ a : EntryAttributes, (a.SetMtime 0).HasMtime = false) ∧
    (∀ ops (a' : EntryAttributes), build EntryAttributes.empty ops = some a' →
      (∀ op ∈ ops, op.isSetMtime = false) → a'.HasMtime = false) ∧
    (∀ a : EntryAttributes, (a.SetCtime 0).HasCtime = false) ∧
    (∀ ops (a' : EntryAttributes), build EntryAttributes.empty ops = some a' →
      (∀ op ∈ ops, op.isSetCtime = false) → a'.HasCtime = false) := by
  refine ⟨fun a => rfl, ?_, fun a => rfl, ?_, fun a => rfl, ?_⟩
  · intro ops a' hbuild hall
    have h0 : a'.atime = 0 := build_preserves (fun x => x.atime = 0) BuildOp.isSetAtime
      (fun b op b' hop happ hP => by
        show b'.atime = 0
        rw [(applyOp_fields b op b' happ).1 hop]; exact hP)
      ops EntryAttributes.empty a' hbuild hall rfl
    simp [EntryAttributes.HasAtime, h0]
  · intro ops a' hbuild hall
    have h0 : a'.mtime = 0 := build_preserves (fun x => x.mtime = 0) BuildOp.isSetMtime
      (fun b op b' hop happ hP => by
        show b'.mtime = 0
        rw [(applyOp_fields b op b' happ).2.1 hop]; exact hP)
      ops EntryAttributes.empty a' hbuild hall rfl
    simp [EntryAttributes.HasMtime, h0]
  · intro ops a' hbuild hall
    have h0 : a'.ctime = 0 := build_preserves (fun x => x.ctime = 0) BuildOp.isSetCtime
      (fun b op b' hop happ hP => by
        show b'.ctime = 0
        rw [(applyOp_fields b op b' happ).2.2.1 hop]; exact hP)
      ops EntryAttributes.empty a' hbuild hall rfl
    simp [EntryAttributes.HasCtime, h0]

/-- C6 witness: each conjunct applied at a concrete record or trace. -/
theorem claim6_witness :
    (EntryAttributes.empty.SetAtime 0).HasAtime = false ∧
    (EntryAttributes.empty.SetSize 3).HasAtime = false ∧
    (EntryAttributes.empty.SetMtime 0).HasMtime = false ∧
    (EntryAttributes.empty.SetSize 3).HasMtime = false ∧
    (EntryAttributes.empty.SetCtime 0).HasCtime = false ∧
    (EntryAttributes.empty.SetSize 3).HasCtime = false := by
  obtain ⟨h1, h2, h3, h4, h5, h6⟩ := claim6_zero_time_indistinguishable
  have hops : ∀ k, BuildOp.opSetSize 3 ∈ [BuildOp.opSetSize 3] → (BuildOp.opSetSize 3).isSetAtime = k → True := fun _ _ _ => trivial
  refine ⟨h1 _, ?_, h3 _, ?_, h5 _, ?_⟩
  · exact h2 [BuildOp.opSetSize 3] _ rfl
      (by intro op hop; rw [List.mem_singleton] at hop; subst hop; rfl)
  · exact h4 [BuildOp.opSetSize 3] _ rfl
      (by intro op hop; rw [List.mem_singleton] at hop; subst hop; rfl)
  · exact h6 [BuildOp.opSetSize 3] _ rfl
      (by intro op hop; rw [List.mem_singleton] at hop; subst hop; rfl)

/-- C2 (amended): decoding is not atomic.  A payload failing the top-level
shape check leaves the receiver unchanged; otherwise the decode either
succeeds or fails at exactly one key in the fixed order atime, mtime, ctime,
mode, size, meta, and then the receiver equals exactly the state after the
keys munged before the failing one — attributes decoded from earlier keys
remain set, and no later key (in particular meta) is ever set by a failing
call. -/
theorem claim2_partial_decode (a : EntryAttributes) (d : GoVal) :
    ((a.UnmarshalJSON d).2 = some DecodeErr.nonJSONObject → (a.UnmarshalJSON d).1 = a) ∧
    (∀ mp, unmarshalTopLevel d = some mp →
      ((a.UnmarshalJSON d).2 = none ∨
       (∃ e, a.UnmarshalJSON d = (a, some (DecodeErr.attrMunge "atime" e))) ∨
       (∃ e, a.UnmarshalJSON d
          = (decodeUpToAtime mp a, some (DecodeErr.attrMunge "mtime" e))) ∨
       (∃ e, a.UnmarshalJSON d
          = (decodeUpToMtime mp a, some (DecodeErr.attrMunge "ctime" e))) ∨
       (∃ e, a.UnmarshalJSON d
          = (decodeUpToCtime mp a, some (DecodeErr.attrMunge "mode" e))) ∨
       (∃ e, a.UnmarshalJSON d
          = (decodeUpToMode mp a, some (DecodeErr.attrMunge "size" e))) ∨
       a.UnmarshalJSON d = (decodeUpToSize mp a, some DecodeErr.metaNotObject))) := by
  constructor
  · intro he
    unfold EntryAttributes.UnmarshalJSON at he ⊢
    cases hd : unmarshalTopLevel d with
    | none => rfl
    | some mp =>
      rw [hd] at he
      exact absurd he (decodeFields_spec mp a).1
  · intro mp hmp
    have hun : a.UnmarshalJSON d = decodeFields mp a := by
      unfold EntryAttributes.UnmarshalJSON
      rw [hmp]
    rw [hun]
    exact decodeFields_cases mp a

/-- C2 counterexample: decoding `{"atime": 1, "meta": "x"}` into an empty
record returns an error (bad meta shape), yet the receiver's atime has
already been set — the record is partially populated. -/
theorem claim2_counterexample :
    ((EntryAttributes.empty.UnmarshalJSON
        (GoVal.vobj [("atime", GoVal.vnum 1), ("meta", GoVal.vstr "x")])).2).isSome = true ∧
    (EntryAttributes.empty.UnmarshalJSON
        (GoVal.vobj [("atime", GoVal.vnum 1), ("meta", GoVal.vstr "x")])).1.atime = 1 ∧
    EntryAttributes.empty.atime = 0 :=
  ⟨rfl, rfl, rfl⟩

/-- C2 witness: the amended theorem applied to a non-object payload and to
`{"atime": 1, "meta": "x"}`, whose decode fails on the meta key. -/
theorem claim2_witness :
    (EntryAttributes.empty.UnmarshalJSON (GoVal.vstr "x")).1 = EntryAttributes.empty ∧
    ((EntryAttributes.empty.UnmarshalJSON ex2doc).2 = none ∨
     (∃ e, EntryAttributes.empty.UnmarshalJSON ex2doc
        = (EntryAttributes.empty, some (DecodeErr.attrMunge "atime" e))) ∨
     (∃ e, EntryAttributes.empty.UnmarshalJSON ex2doc
        = (decodeUpToAtime ex2map EntryAttributes.empty,
           some (DecodeErr.attrMunge "mtime" e))) ∨
     (∃ e, EntryAttributes.empty.UnmarshalJSON ex2doc
        = (decodeUpToMtime ex2map EntryAttributes.empty,
           some (DecodeErr.attrMunge "ctime" e))) ∨
     (∃ e, EntryAttributes.empty.UnmarshalJSON ex2doc
        = (decodeUpToCtime ex2map EntryAttributes.empty,
           some (DecodeErr.attrMunge "mode" e))) ∨
     (∃ e, EntryAttributes.empty.UnmarshalJSON ex2doc
        = (decodeUpToMode ex2map EntryAttributes.empty,
           some (DecodeErr.attrMunge "size" e))) ∨
     EntryAttributes.empty.UnmarshalJSON ex2doc
        = (decodeUpToSize ex2map EntryAttributes.empty, some DecodeErr.metaNotObject)) :=
  ⟨(claim2_partial_decode EntryAttributes.empty (GoVal.vstr "x")).1 rfl,
   (claim2_partial_decode EntryAttributes.empty ex2doc).2 ex2map rfl⟩

/-- C7 (amended): for a document whose decoded map carries a `"mode"` key,
provided the time keys (munged before mode) are absent or coerce
successfully, the mode key decodes iff its raw decoded value is a float64 —
on success mode is set from the numeric bits and `HasMode` becomes true
(even if a later key fails); any other shape fails the decode with the
mode-named munge error.  When a time key fails to coerce, the decode fails
naming that time attribute instead of mode. -/
theorem claim7_mode_decode (a : EntryAttributes) (fs : List (String × GoVal)) (v : GoVal)
    (hat : timeKeyClean (mapOfFields (goDecodeFields fs)) "atime")
    (hmt : timeKeyClean (mapOfFields (goDecodeFields fs)) "mtime")
    (hct : timeKeyClean (mapOfFields (goDecodeFields fs)) "ctime")
    (hmode : mapGet (mapOfFields (goDecodeFields fs)) "mode" = some v) :
    (∀ n, v = GoVal.vnum n →
      (a.UnmarshalJSON (GoVal.vobj fs)).1.HasMode = true ∧
      (a.UnmarshalJSON (GoVal.vobj fs)).1.Mode = fileModeOfFloat n) ∧
    ((∀ n, v ≠ GoVal.vnum n) →
      ∃ b, a.UnmarshalJSON (GoVal.vobj fs)
        = (b, some (attrMungeError "mode" (GoErr.modeType v)))) := by
  have hun : a.UnmarshalJSON (GoVal.vobj fs)
      = decodeFields (mapOfFields (goDecodeFields fs)) a := rfl
  set mp := mapOfFields (goDecodeFields fs) with hmp
  have h1 : (decodeTimeKey "atime" EntryAttributes.SetAtime mp a).2 = none :=
    decodeTimeKey_clean _ _ _ _ hat
  have h1' : decodeTimeKey "atime" EntryAttributes.SetAtime mp a
      = (decodeUpToAtime mp a, none) := by
    rw [← h1]
    rfl
  have h2 : (decodeTimeKey "mtime" EntryAttributes.SetMtime mp (decodeUpToAtime mp a)).2
      = none := decodeTimeKey_clean _ _ _ _ hmt
  have h2' : decodeTimeKey "mtime" EntryAttributes.SetMtime mp (decodeUpToAtime mp a)
      = (decodeUpToMtime mp a, none) := by
    rw [← h2]
    rfl
  have h3 : (decodeTimeKey "ctime" EntryAttributes.SetCtime mp (decodeUpToMtime mp a)).2
      = none := decodeTimeKey_clean _ _ _ _ hct
  have h3' : decodeTimeKey "ctime" EntryAttributes.SetCtime mp (decodeUpToMtime mp a)
      = (decodeUpToCtime mp a, none) := by
    rw [← h3]
    rfl
  have hchain : decodeFields mp a
      = decodeAndThen (decodeModeKey mp (decodeUpToCtime mp a)) fun b =>
          decodeAndThen (decodeSizeKey mp b) fun b2 => decodeMetaKey mp b2 := by
    unfold decodeFields
    rw [h1']
    simp only [decodeAndThen]
    rw [h2']
    simp only [decodeAndThen]
    rw [h3']
  constructor
  · rintro n rfl
    have hmodeeq : decodeModeKey mp (decodeUpToCtime mp a)
        = ((decodeUpToCtime mp a).SetMode (fileModeOfFloat n), none) := by
      simp [decodeModeKey, hmode]
    rw [hun, hchain, hmodeeq]
    have h := decodeSM_mode mp ((decodeUpToCtime mp a).SetMode (fileModeOfFloat n))
    exact ⟨h.1, h.2⟩
  · intro hne
    have hmodeeq : decodeModeKey mp (decodeUpToCtime mp a)
        = (decodeUpToCtime mp a, some (attrMungeError "mode" (GoErr.modeType v))) := by
      cases v with
      | vnum n => exact absurd rfl (hne n)
      | vnull => simp [decodeModeKey, hmode]
      | vbool b => simp [decodeModeKey, hmode]
      | vstr s2 => simp [decodeModeKey, hmode]
      | vtime t => simp [decodeModeKey, hmode]
      | vmode m => simp [decodeModeKey, hmode]
      | vsize n => simp [decodeModeKey, hmode]
      | varr xs => simp [decodeModeKey, hmode]
      | vobj fs2 => simp [decodeModeKey, hmode]
    rw [hun, hchain, hmodeeq]
    exact ⟨decodeUpToCtime mp a, rfl⟩

/-- C7 counterexample: the document `{"ctime": [], "mode": []}` contains a
mode key of non-numeric shape, yet decoding fails with the error naming the
ctime attribute (times are munged before mode), not the mode attribute. -/
theorem claim7_counterexample :
    mapGet (mapOfFields (goDecodeFields
        [("ctime", GoVal.varr []), ("mode", GoVal.varr [])])) "mode"
      = some (GoVal.varr []) ∧
    (EntryAttributes.empty.UnmarshalJSON
        (GoVal.vobj [("ctime", GoVal.varr []), ("mode", GoVal.varr [])])).2
      = some (attrMungeError "ctime" (GoErr.timeCoercion (GoVal.varr []))) :=
  ⟨rfl, rfl⟩

/-- C7 witness: decoding `{"ctime": 9, "mode": 493}` — a document with a
clean time key alongside mode — sets mode 493 and `HasMode`. -/
theorem claim7_witness :
    (EntryAttributes.empty.UnmarshalJSON
        (GoVal.vobj [("ctime", GoVal.vnum 9), ("mode", GoVal.vnum 493)])).1.HasMode
      = true ∧
    (EntryAttributes.empty.UnmarshalJSON
        (GoVal.vobj [("ctime", GoVal.vnum 9), ("mode", GoVal.vnum 493)])).1.Mode
      = 493 := by
  have h := (claim7_mode_decode EntryAttributes.empty
      [("ctime", GoVal.vnum 9), ("mode", GoVal.vnum 493)] (GoVal.vnum 493)
      (fun v hv => Option.noConfusion hv)
      (fun v hv => Option.noConfusion hv)
      (fun v hv => by injection hv with hv2; subst hv2; exact ⟨9, rfl⟩)
      rfl).1 493 rfl
  exact ⟨h.1, h.2.trans rfl⟩

/-- C8 (amended): a payload that is neither a JSON object nor JSON `null`
fails with the top-level malformed-input error and sets nothing; an object
payload never yields that error; but the JSON document `null` is accepted
silently (the map is set to nil), so it neither errors nor sets anything. -/
theorem claim8_toplevel (a : EntryAttributes) (d : GoVal) :
    (a.UnmarshalJSON GoVal.vnull = (a, none)) ∧
    ((∀ fs, d ≠ GoVal.vobj fs) → d ≠ GoVal.vnull →
      a.UnmarshalJSON d = (a, some DecodeErr.nonJSONObject)) ∧
    (∀ fs, d = GoVal.vobj fs → (a.UnmarshalJSON d).2 ≠ some DecodeErr.nonJSONObject) := by
  refine ⟨rfl, ?_, ?_⟩
  · intro hobj hnull
    cases d with
    | vnull => exact absurd rfl hnull
    | vobj fs => exact absurd rfl (hobj fs)
    | vbool b => rfl
    | vnum n => rfl
    | vstr s2 => rfl
    | vtime t => rfl
    | vmode m => rfl
    | vsize n => rfl
    | varr xs => rfl
  · rintro fs rfl
    exact (decodeFields_spec (mapOfFields (goDecodeFields fs)) a).1

/-- C8 counterexample: the JSON document `null` is not a JSON object, yet
`UnmarshalJSON` returns no error on it. -/
theorem claim8_counterexample :
    (∀ fs, GoVal.vnull ≠ GoVal.vobj fs) ∧
    (EntryAttributes.empty.UnmarshalJSON GoVal.vnull).2 = none :=
  ⟨fun _ h => GoVal.noConfusion h, rfl⟩

/-- C8 witness: the amended theorem applied to an array, an object and
`null`. -/
theorem claim8_witness :
    EntryAttributes.empty.UnmarshalJSON GoVal.vnull = (EntryAttributes.empty, none) ∧
    EntryAttributes.empty.UnmarshalJSON (GoVal.varr [])
      = (EntryAttributes.empty, some DecodeErr.nonJSONObject) ∧
    (EntryAttributes.empty.UnmarshalJSON (GoVal.vobj [])).2 ≠ some DecodeErr.nonJSONObject :=
  ⟨(claim8_toplevel EntryAttributes.empty (GoVal.varr [])).1,
   (claim8_toplevel EntryAttributes.empty (GoVal.varr [])).2.1
     (fun _ h => GoVal.noConfusion h) (fun h => GoVal.noConfusion h),
   (claim8_toplevel EntryAttributes.empty (GoVal.vobj [])).2.2 [] rfl⟩

/-- C9: `Meta()` returns the stored explicit override when one was installed,
and otherwise returns exactly `ToMap(false)`. -/
theorem claim9_meta_fallback (a : EntryAttributes) :
    (∀ m, a.meta = some m → a.Meta = m) ∧ (a.meta = none → a.Meta = a.ToMap false) := by
  constructor
  · intro m hm
    simp [EntryAttributes.Meta, hm]
  · intro hm
    show a.Meta = a.toMapBase
    simp [EntryAttributes.Meta, hm]

/-- C9 witness: the theorem applied with and without an override. -/
theorem claim9_witness :
    ex9.Meta = [("k", GoVal.vnull)] ∧
    EntryAttributes.empty.Meta = EntryAttributes.empty.ToMap false :=
  ⟨(claim9_meta_fallback ex9).1 _ rfl, (claim9_meta_fallback EntryAttributes.empty).2 rfl⟩

/-- C10: on the completely empty record, `ToMap(true)` is exactly the
one-entry map `{"meta": {}}`. -/
theorem claim10_empty_toMap :
    EntryAttributes.empty.ToMap true = [("meta", GoVal.vobj [])] := rfl

end Wash
